import Mathlib

/-!
Verification of the rooftop-solar availability-matrix construction of
pypsa-rsa (`pre_processing/resource_processing/prepare_rooftop_solar_pv.ipynb`).

The notebook pipeline is:

* `buildings_in_cells = gpd.sjoin(buildings, grid, op="within")` — every
  building feature is paired with every grid cell whose polygon spatially
  contains it;
* `building_area_in_cell = buildings_in_cells.groupby(["y","x"]).sum()["area"].to_xarray()`
  — per-cell total building area, dense over the observed coordinates with
  NaN at unobserved combinations;
* `map_cell_to_region = gpd.sjoin(grid, supply_regions, op="within")[["x","y","name"]]`
  — per-bus member cells by spatial containment of the cell in the region;
* per bus: `cell_list` (member cells), `mask = coords.x.isin(cell_list.x) & coords.y.isin(cell_list.y)`
  (a Cartesian product of the member x and y coordinate values),
  `selected_data = building_area_in_cell.where(mask, drop=True)`,
  `availability_matrix.loc[bus, selected.y, selected.x] = (selected_data/selected_data.sum()).values`.

The geometry tests themselves (shapely `within`) are delegated to the
geospatial library; they enter the model as Boolean-valued parameters
`featWithin` (building polygon within a cell polygon) and `cellWithin`
(cell polygon within a supply-region polygon).  Areas are modelled as
rationals; an undefined (NaN) array entry is modelled as `none`.
-/

namespace PypsaRsa

/-- A building-footprint feature: an identifier standing for its polygon
geometry, plus its scalar weight (`buildings["area"]`, the projected polygon
area). -/
structure Feature where
  fid : Nat
  weight : ℚ
deriving DecidableEq

/-- A climate-grid cell, identified by its x and y coordinate labels
(`cutout.grid` rows). -/
structure Cell where
  x : Int
  y : Int
deriving DecidableEq

/-- `buildings_in_cells = gpd.sjoin(buildings, grid, op="within")`: one row per
(feature, cell) pair for which the feature polygon is within the cell
polygon. -/
def buildings_in_cells (features : List Feature) (grid : List Cell)
    (featWithin : Nat → Cell → Bool) : List (Feature × Cell) :=
  features.flatMap fun f => ((grid.filter fun c => featWithin f.fid c).map fun c => (f, c))

/-- The rows of `buildings_in_cells` that fall in the groupby group of cell
`c` (group key `(y, x)`). -/
def building_area_pairs (features : List Feature) (grid : List Cell)
    (featWithin : Nat → Cell → Bool) (c : Cell) : List (Feature × Cell) :=
  (buildings_in_cells features grid featWithin).filter fun p => decide (p.2 = c)

/-- `building_area_in_cell = buildings_in_cells.groupby(["y","x"]).sum()["area"].to_xarray()`:
the summed building area of cell `c`, `none` (NaN in the dense xarray) when no
building is within the cell. -/
def building_area_in_cell (features : List Feature) (grid : List Cell)
    (featWithin : Nat → Cell → Bool) (c : Cell) : Option ℚ :=
  let ps := building_area_pairs features grid featWithin c
  if ps.isEmpty then none else some ((ps.map fun p => p.1.weight).sum)

/-- `map_cell_to_region = gpd.sjoin(grid, supply_regions, op="within")[["x","y","name"]]`:
one row per (cell, bus name) pair for which the cell polygon is within that
supply region polygon. -/
def map_cell_to_region (grid : List Cell) (buses : List String)
    (cellWithin : Cell → String → Bool) : List (Cell × String) :=
  grid.flatMap fun c => ((buses.filter fun b => cellWithin c b).map fun b => (c, b))

/-- `cell_list = map_cell_to_region[map_cell_to_region["name"] == bus][["x","y"]]`:
the member cells of bus `bus`. -/
def cell_list (grid : List Cell) (buses : List String)
    (cellWithin : Cell → String → Bool) (bus : String) : List Cell :=
  ((map_cell_to_region grid buses cellWithin).filter fun p => decide (p.2 = bus)).map
    fun p => p.1

/-- `mask = coords.x.isin(cell_list.x) & coords.y.isin(cell_list.y)`: the
selected region is the Cartesian product of the member x-values and the member
y-values, not the member set itself. -/
def mask (grid : List Cell) (buses : List String)
    (cellWithin : Cell → String → Bool) (bus : String) (c : Cell) : Bool :=
  decide (c.x ∈ (cell_list grid buses cellWithin bus).map Cell.x) &&
  decide (c.y ∈ (cell_list grid buses cellWithin bus).map Cell.y)

/-- `selected_data.sum()`: xarray `sum` skips NaN entries, so this is the total
of the defined (`some`) building-area values over the masked cells. -/
def selected_total (features : List Feature) (grid : List Cell)
    (featWithin : Nat → Cell → Bool) (buses : List String)
    (cellWithin : Cell → String → Bool) (bus : String) : ℚ :=
  ((grid.filter fun c => mask grid buses cellWithin bus c).map
    fun c => (building_area_in_cell features grid featWithin c).getD 0).sum

/-- The x coordinate labels kept by `where(mask, drop=True)`: an x survives the
drop exactly when some masked cell with that x has a defined building-area
value. -/
def keptXs (features : List Feature) (grid : List Cell)
    (featWithin : Nat → Cell → Bool) (buses : List String)
    (cellWithin : Cell → String → Bool) (bus : String) : List Int :=
  ((grid.filter fun c => mask grid buses cellWithin bus c &&
      (building_area_in_cell features grid featWithin c).isSome).map Cell.x)

/-- The y coordinate labels kept by `where(mask, drop=True)`. -/
def keptYs (features : List Feature) (grid : List Cell)
    (featWithin : Nat → Cell → Bool) (buses : List String)
    (cellWithin : Cell → String → Bool) (bus : String) : List Int :=
  ((grid.filter fun c => mask grid buses cellWithin bus c &&
      (building_area_in_cell features grid featWithin c).isSome).map Cell.y)

/-- Elementwise `selected_data / selected_data.sum()`.  A NaN numerator stays
NaN.  With non-negative weights a zero total forces every defined selected
value to be `0`, and `0.0/0.0` is NaN in the source, so a zero denominator is
modelled as `none`. -/
def xdiv (v : Option ℚ) (s : ℚ) : Option ℚ :=
  v.bind fun q => if s = 0 then none else some (q / s)

/-- The final per-bus slice of `availability_matrix` after
`availability_matrix.loc[dict(bus=bus, x=selected.x, y=selected.y)] = (selected_data/selected_data.sum()).values`:
cells inside the kept Cartesian block receive the normalized selected value
(possibly NaN), all other cells keep their initial undefined value. -/
def availability (features : List Feature) (grid : List Cell)
    (featWithin : Nat → Cell → Bool) (buses : List String)
    (cellWithin : Cell → String → Bool) (bus : String) (c : Cell) : Option ℚ :=
  if c.x ∈ keptXs features grid featWithin buses cellWithin bus ∧
      c.y ∈ keptYs features grid featWithin buses cellWithin bus then
    xdiv (building_area_in_cell features grid featWithin c)
      (selected_total features grid featWithin buses cellWithin bus)
  else none

/-- Total building area over the member cells of a bus (the quantity the spec
normalizes by; the source instead normalizes by `selected_total`). -/
def member_total (features : List Feature) (grid : List Cell)
    (featWithin : Nat → Cell → Bool) (buses : List String)
    (cellWithin : Cell → String → Bool) (bus : String) : ℚ :=
  ((cell_list grid buses cellWithin bus).map
    fun c => (building_area_in_cell features grid featWithin c).getD 0).sum

/-- Sum of the defined entries of one bus row of the availability matrix
(undefined entries contribute `0`). -/
def defined_sum (features : List Feature) (grid : List Cell)
    (featWithin : Nat → Cell → Bool) (buses : List String)
    (cellWithin : Cell → String → Bool) (bus : String) : ℚ :=
  (grid.map fun c =>
    (availability features grid featWithin buses cellWithin bus c).getD 0).sum

/-- The list of grid cells selected by the mask of a bus (the cells whose
entries take part in the normalization and the assignment). -/
def masked_cells (grid : List Cell) (buses : List String)
    (cellWithin : Cell → String → Bool) (bus : String) : List Cell :=
  grid.filter fun c => mask grid buses cellWithin bus c

/-- The grid cells the spatial join matches to one feature: every cell whose
polygon contains the feature polygon. -/
def assigned_cells (grid : List Cell) (featWithin : Nat → Cell → Bool)
    (fid : Nat) : List Cell :=
  grid.filter fun c => featWithin fid c

/-- Doubling the weight of the feature(s) with identifier `fid`, holding the
geometry (hence the cell assignment) fixed. -/
def double_feature (features : List Feature) (fid : Nat) : List Feature :=
  features.map fun f => if f.fid = fid then { f with weight := 2 * f.weight } else f

/-- Total weight carried by the features with identifier `fid`. -/
def fid_weight (features : List Feature) (fid : Nat) : ℚ :=
  ((features.filter fun f => decide (f.fid = fid)).map Feature.weight).sum

/-- The error taxonomy of the spec for `computeZoneAvailability`. -/
inductive RunError where
  | invalidInput
  | projectionMismatch
deriving DecidableEq

/-- The warning taxonomy of the spec for `computeZoneAvailability`. -/
inductive RunWarning where
  | noMemberCells
  | degenerateGeometry
deriving DecidableEq

/-- The notebook loop as one operation.  The `Except` wrapper records the
spec's error taxonomy; the loop itself performs no input validation and has no
failure path, so every run returns the computed matrices. -/
def computeZoneAvailability (features : List Feature) (grid : List Cell)
    (featWithin : Nat → Cell → Bool) (buses : List String)
    (cellWithin : Cell → String → Bool) :
    Except RunError (String → Cell → Option ℚ) :=
  Except.ok (availability features grid featWithin buses cellWithin)

/-- Warnings surfaced by the notebook loop.  Traced from the source: no
statement of the loop raises, collects or returns any warning, so the warning
list of every run is empty. -/
def run_warnings (_features : List Feature) (_grid : List Cell)
    (_featWithin : Nat → Cell → Bool) (_buses : List String)
    (_cellWithin : Cell → String → Bool) : List RunWarning :=
  []

/-! ### Concrete inputs shared by scenario theorems and witnesses -/

/-- The four-cell grid of the spec scenario. -/
def grid4 : List Cell := [⟨0, 0⟩, ⟨0, 1⟩, ⟨1, 0⟩, ⟨1, 1⟩]

/-- Scenario features: one polygon of weight 10 (fid 0) and one of weight 30
(fid 1). -/
def exF : List Feature := [⟨0, 10⟩, ⟨1, 30⟩]

/-- Scenario containment: feature 0 lies in cell (0,0), feature 1 in (0,1). -/
def exW : Nat → Cell → Bool := fun i c =>
  (decide (i = 0) && decide (c = ⟨0, 0⟩)) || (decide (i = 1) && decide (c = ⟨0, 1⟩))

/-- Scenario zone: Z1 holds cells (0,0) and (0,1). -/
def exCW : Cell → String → Bool := fun c b =>
  decide (b = "Z1") && (decide (c = ⟨0, 0⟩) || decide (c = ⟨0, 1⟩))

/-- Features of the leakage scenario: unit areas in the two diagonal member
cells and weight 5 in the off-diagonal cell (1,0). -/
def lkF : List Feature := [⟨0, 1⟩, ⟨1, 1⟩, ⟨2, 5⟩]

/-- Leakage containment: feature 0 in (0,0), feature 1 in (1,1), feature 2 in
(1,0). -/
def lkW : Nat → Cell → Bool := fun i c =>
  (decide (i = 0) && decide (c = ⟨0, 0⟩)) || (decide (i = 1) && decide (c = ⟨1, 1⟩)) ||
  (decide (i = 2) && decide (c = ⟨1, 0⟩))

/-- Diagonal zone: Z1 holds cells (0,0) and (1,1) only, so its member set is
not a full rectangle in index space. -/
def lkCW : Cell → String → Bool := fun c b =>
  decide (b = "Z1") && (decide (c = ⟨0, 0⟩) || decide (c = ⟨1, 1⟩))

/-- A single feature of weight 5 in the non-member cell (1,0) of the diagonal
zone: the zone's member cells carry zero weight. -/
def zF : List Feature := [⟨2, 5⟩]

/-- Scenario features together with a zero-weight feature (fid 2) also lying
in cell (0,0). -/
def zeroF : List Feature := [⟨0, 10⟩, ⟨1, 30⟩, ⟨2, 0⟩]

/-- Containment for `zeroF`: features 0 and 2 in cell (0,0), feature 1 in
(0,1). -/
def zeroW : Nat → Cell → Bool := fun i c =>
  (decide (i = 0) && decide (c = ⟨0, 0⟩)) || (decide (i = 1) && decide (c = ⟨0, 1⟩)) ||
  (decide (i = 2) && decide (c = ⟨0, 0⟩))

/-! ### List helper lemmas -/

theorem sum_map_ite_filter {α : Type} (l : List α) (p : α → Bool) (g : α → ℚ) :
    ((l.filter p).map g).sum = (l.map fun a => if p a then g a else 0).sum := by
  induction l with
  | nil => rfl
  | cons a t ih =>
    by_cases h : p a = true <;> simp [List.filter_cons, h, ih]

theorem sum_map_div_eq {α : Type} (l : List α) (g : α → ℚ) (T : ℚ) :
    (l.map fun a => g a / T).sum = (l.map g).sum / T := by
  induction l with
  | nil => simp
  | cons a t ih => simp [ih, add_div]

theorem sum_pos_of_mem_list {l : List ℚ} (h0 : ∀ x ∈ l, 0 ≤ x) {x : ℚ}
    (hx : x ∈ l) (hxpos : 0 < x) : 0 < l.sum :=
  lt_of_lt_of_le hxpos (List.single_le_sum h0 x hx)

theorem exists_ne_zero_of_sum_ne {l : List ℚ} (h : l.sum ≠ 0) : ∃ x ∈ l, x ≠ 0 := by
  by_contra hc
  push_neg at hc
  exact h (List.sum_eq_zero hc)

theorem filter_eq_singleton {l : List Cell} (hnd : l.Nodup) {c : Cell} (hc : c ∈ l) :
    l.filter (fun d => decide (d = c)) = [c] := by
  induction l with
  | nil => cases hc
  | cons a t ih =>
    rcases List.mem_cons.mp hc with rfl | hct
    · have ht : t.filter (fun d => decide (d = c)) = [] := by
        refine List.filter_eq_nil_iff.mpr fun d hd => ?_
        simp only [decide_eq_true_eq]
        rintro rfl
        exact (List.nodup_cons.mp hnd).1 hd
      simp [List.filter_cons, ht]
    · have ha : a ≠ c := by
        rintro rfl
        exact (List.nodup_cons.mp hnd).1 hct
      simp [List.filter_cons, ha, ih (List.nodup_cons.mp hnd).2 hct]

theorem sum_map_eq_single {α : Type} [DecidableEq α] {l : List α} (hnd : l.Nodup)
    {c : α} (hc : c ∈ l) (h : α → ℚ) (hz : ∀ d ∈ l, d ≠ c → h d = 0) :
    (l.map h).sum = h c := by
  induction l with
  | nil => cases hc
  | cons a t ih =>
    rcases List.mem_cons.mp hc with rfl | hct
    · have ht : (t.map h).sum = 0 := by
        refine List.sum_eq_zero fun x hx => ?_
        rcases List.mem_map.mp hx with ⟨d, hd, rfl⟩
        refine hz d (List.mem_cons_of_mem _ hd) ?_
        rintro rfl
        exact (List.nodup_cons.mp hnd).1 hd
      simp [ht]
    · have ha : h a = 0 := by
        refine hz a (List.mem_cons_self a t) ?_
        rintro rfl
        exact (List.nodup_cons.mp hnd).1 hct
      simp [ha, ih (List.nodup_cons.mp hnd).2 hct
        (fun d hd => hz d (List.mem_cons_of_mem _ hd))]

theorem sum_map_double_split {α : Type} (l : List α) (q : α → Bool) (g : α → ℚ) :
    (l.map fun a => if q a then 2 * g a else g a).sum =
      (l.map g).sum + (l.map fun a => if q a then g a else 0).sum := by
  induction l with
  | nil => simp
  | cons a t ih =>
    by_cases h : q a = true <;> simp [h, ih] <;> ring

theorem sum_map_ite_sub {α : Type} (l : List α) (p q : α → Bool) (g : α → ℚ)
    (hpq : ∀ a ∈ l, q a = true → p a = true) :
    ((l.filter p).map fun a => if q a then g a else 0).sum =
      (l.map fun a => if q a then g a else 0).sum := by
  induction l with
  | nil => rfl
  | cons a t ih =>
    have ih2 := ih fun a ha => hpq a (List.mem_cons_of_mem _ ha)
    by_cases hq : q a = true
    · rw [List.filter_cons_of_pos (hpq a (List.mem_cons_self a t) hq)]
      simp [hq, ih2]
    · by_cases hp : p a = true
      · rw [List.filter_cons_of_pos hp]
        simp [hq, ih2]
      · rw [List.filter_cons_of_neg hp]
        simp [hq, ih2]

theorem length_le_one_of_nodup {α : Type} {l : List α} (hnd : l.Nodup)
    (h : ∀ a ∈ l, ∀ b ∈ l, a = b) : l.length ≤ 1 := by
  match l with
  | [] => simp
  | [a] => simp
  | a :: b :: t =>
    exfalso
    have hab : a = b :=
      h a (List.mem_cons_self a (b :: t)) b (List.mem_cons_of_mem _ (List.mem_cons_self b t))
    exact (List.nodup_cons.mp hnd).1 (hab ▸ List.mem_cons_self b t)

/-! ### Structural lemmas about the pipeline -/

theorem mem_buildings_in_cells {features : List Feature} {grid : List Cell}
    {featWithin : Nat → Cell → Bool} {p : Feature × Cell} :
    p ∈ buildings_in_cells features grid featWithin ↔
      p.1 ∈ features ∧ p.2 ∈ grid ∧ featWithin p.1.fid p.2 = true := by
  cases p with
  | mk f c =>
    simp only [buildings_in_cells, List.mem_flatMap, List.mem_map, List.mem_filter,
      Prod.mk.injEq]
    constructor
    · rintro ⟨g, hg, d, ⟨hd, hw⟩, rfl, rfl⟩
      exact ⟨hg, hd, hw⟩
    · rintro ⟨hf, hc, hw⟩
      exact ⟨f, hf, c, ⟨hc, hw⟩, rfl, rfl⟩

theorem filter_pair_head {grid : List Cell} (hnd : grid.Nodup) {c : Cell} (hc : c ∈ grid)
    (w : Cell → Bool) (f : Feature) :
    ((grid.filter w).map fun d => (f, d)).filter (fun p => decide (p.2 = c)) =
      if w c then [(f, c)] else [] := by
  rw [List.filter_map]
  have hcomp : ((fun p : Feature × Cell => decide (p.2 = c)) ∘ fun d => (f, d)) =
      fun d => decide (d = c) := rfl
  rw [hcomp, List.filter_filter]
  by_cases hw : w c = true
  · have hcg : grid.filter (fun a => decide (a = c) && w a) =
        grid.filter fun d => decide (d = c) := by
      refine List.filter_congr fun d _ => ?_
      by_cases hdc : d = c
      · subst hdc; simp [hw]
      · simp [hdc]
    rw [hcg, filter_eq_singleton hnd hc, hw]
    rfl
  · have hnil : grid.filter (fun a => decide (a = c) && w a) = [] := by
      refine List.filter_eq_nil_iff.mpr fun d _ hpass => ?_
      rcases Bool.and_eq_true_iff.mp hpass with ⟨hdc, hwd⟩
      exact hw ((of_decide_eq_true hdc) ▸ hwd)
    rw [hnil, if_neg hw]
    rfl

theorem building_area_pairs_eq {features : List Feature} {grid : List Cell}
    {featWithin : Nat → Cell → Bool} {c : Cell} (hnd : grid.Nodup) (hc : c ∈ grid) :
    building_area_pairs features grid featWithin c =
      (features.filter fun f => featWithin f.fid c).map fun f => (f, c) := by
  induction features with
  | nil => rfl
  | cons f fs ih =>
    have hstep : buildings_in_cells (f :: fs) grid featWithin =
        ((grid.filter fun d => featWithin f.fid d).map fun d => (f, d)) ++
          buildings_in_cells fs grid featWithin := by
      simp [buildings_in_cells]
    unfold building_area_pairs at ih ⊢
    rw [hstep, List.filter_append, ih, filter_pair_head hnd hc]
    by_cases hw : featWithin f.fid c = true <;>
      simp [List.filter_cons, hw]

theorem building_area_getD_eq {features : List Feature} {grid : List Cell}
    {featWithin : Nat → Cell → Bool} {c : Cell} (hnd : grid.Nodup) (hc : c ∈ grid) :
    (building_area_in_cell features grid featWithin c).getD 0 =
      ((features.filter fun f => featWithin f.fid c).map Feature.weight).sum := by
  unfold building_area_in_cell
  rw [building_area_pairs_eq hnd hc]
  by_cases h : (features.filter fun f => featWithin f.fid c) = []
  · simp [h]
  · rw [if_neg (by simpa using h)]
    simp [List.map_map, Function.comp_def]

theorem building_area_none_iff {features : List Feature} {grid : List Cell}
    {featWithin : Nat → Cell → Bool} {c : Cell} (hnd : grid.Nodup) (hc : c ∈ grid) :
    building_area_in_cell features grid featWithin c = none ↔
      (features.filter fun f => featWithin f.fid c) = [] := by
  unfold building_area_in_cell
  rw [building_area_pairs_eq hnd hc]
  by_cases h : (features.filter fun f => featWithin f.fid c) = [] <;>
    simp [h]

theorem building_area_nonneg {features : List Feature} {grid : List Cell}
    {featWithin : Nat → Cell → Bool} (hw : ∀ f ∈ features, 0 ≤ f.weight) {c : Cell}
    {v : ℚ} (h : building_area_in_cell features grid featWithin c = some v) : 0 ≤ v := by
  unfold building_area_in_cell at h
  by_cases he : (building_area_pairs features grid featWithin c).isEmpty
  · simp [he] at h
  · rw [if_neg he, Option.some.injEq] at h
    subst h
    refine List.sum_nonneg fun x hx => ?_
    rcases List.mem_map.mp hx with ⟨p, hp, rfl⟩
    exact hw p.1 (mem_buildings_in_cells.mp (List.mem_filter.mp hp).1).1

theorem building_area_getD_nonneg {features : List Feature} {grid : List Cell}
    {featWithin : Nat → Cell → Bool} (hw : ∀ f ∈ features, 0 ≤ f.weight) (c : Cell) :
    0 ≤ (building_area_in_cell features grid featWithin c).getD 0 := by
  cases h : building_area_in_cell features grid featWithin c with
  | none => simp
  | some v => simpa using building_area_nonneg hw h

theorem mem_map_cell_to_region {grid : List Cell} {buses : List String}
    {cellWithin : Cell → String → Bool} {c : Cell} {b : String} :
    (c, b) ∈ map_cell_to_region grid buses cellWithin ↔
      c ∈ grid ∧ b ∈ buses ∧ cellWithin c b = true := by
  simp only [map_cell_to_region, List.mem_flatMap, List.mem_map, List.mem_filter,
    Prod.mk.injEq]
  constructor
  · rintro ⟨d, hd, b2, ⟨hb2, hw⟩, rfl, rfl⟩
    exact ⟨hd, hb2, hw⟩
  · rintro ⟨hc, hb, hw⟩
    exact ⟨c, hc, b, ⟨hb, hw⟩, rfl, rfl⟩

theorem mem_cell_list {grid : List Cell} {buses : List String}
    {cellWithin : Cell → String → Bool} {bus : String} {c : Cell} :
    c ∈ cell_list grid buses cellWithin bus ↔
      c ∈ grid ∧ bus ∈ buses ∧ cellWithin c bus = true := by
  unfold cell_list
  constructor
  · intro h
    rcases List.mem_map.mp h with ⟨p, hp, rfl⟩
    rcases List.mem_filter.mp hp with ⟨hmem, hb⟩
    have hb2 : p.2 = bus := of_decide_eq_true hb
    obtain ⟨c, b⟩ := p
    cases hb2
    exact mem_map_cell_to_region.mp hmem
  · rintro ⟨hg, hb, hw⟩
    exact List.mem_map.mpr ⟨(c, bus),
      List.mem_filter.mpr ⟨mem_map_cell_to_region.mpr ⟨hg, hb, hw⟩, by simp⟩, rfl⟩

theorem mask_iff {grid : List Cell} {buses : List String}
    {cellWithin : Cell → String → Bool} {bus : String} {c : Cell} :
    mask grid buses cellWithin bus c = true ↔
      c.x ∈ (cell_list grid buses cellWithin bus).map Cell.x ∧
      c.y ∈ (cell_list grid buses cellWithin bus).map Cell.y := by
  simp [mask]

theorem mask_of_mem_cell_list {grid : List Cell} {buses : List String}
    {cellWithin : Cell → String → Bool} {bus : String} {c : Cell}
    (h : c ∈ cell_list grid buses cellWithin bus) :
    mask grid buses cellWithin bus c = true :=
  mask_iff.mpr ⟨List.mem_map.mpr ⟨c, h, rfl⟩, List.mem_map.mpr ⟨c, h, rfl⟩⟩

theorem kept_of_mask_isSome {features : List Feature} {grid : List Cell}
    {featWithin : Nat → Cell → Bool} {buses : List String}
    {cellWithin : Cell → String → Bool} {bus : String} {c : Cell}
    (hc : c ∈ grid) (hm : mask grid buses cellWithin bus c = true)
    (hs : (building_area_in_cell features grid featWithin c).isSome = true) :
    c.x ∈ keptXs features grid featWithin buses cellWithin bus ∧
    c.y ∈ keptYs features grid featWithin buses cellWithin bus :=
  ⟨List.mem_map.mpr ⟨c, List.mem_filter.mpr ⟨hc, by simp [hm, hs]⟩, rfl⟩,
   List.mem_map.mpr ⟨c, List.mem_filter.mpr ⟨hc, by simp [hm, hs]⟩, rfl⟩⟩

theorem mem_keptXs_elim {features : List Feature} {grid : List Cell}
    {featWithin : Nat → Cell → Bool} {buses : List String}
    {cellWithin : Cell → String → Bool} {bus : String} {x : Int}
    (h : x ∈ keptXs features grid featWithin buses cellWithin bus) :
    x ∈ (cell_list grid buses cellWithin bus).map Cell.x := by
  rcases List.mem_map.mp h with ⟨d, hd, rfl⟩
  have hm := List.mem_filter.mp hd
  exact (mask_iff.mp (Bool.and_eq_true_iff.mp hm.2).1).1

theorem mem_keptYs_elim {features : List Feature} {grid : List Cell}
    {featWithin : Nat → Cell → Bool} {buses : List String}
    {cellWithin : Cell → String → Bool} {bus : String} {y : Int}
    (h : y ∈ keptYs features grid featWithin buses cellWithin bus) :
    y ∈ (cell_list grid buses cellWithin bus).map Cell.y := by
  rcases List.mem_map.mp h with ⟨d, hd, rfl⟩
  have hm := List.mem_filter.mp hd
  exact (mask_iff.mp (Bool.and_eq_true_iff.mp hm.2).1).2

theorem mask_of_kept {features : List Feature} {grid : List Cell}
    {featWithin : Nat → Cell → Bool} {buses : List String}
    {cellWithin : Cell → String → Bool} {bus : String} {c : Cell}
    (hx : c.x ∈ keptXs features grid featWithin buses cellWithin bus)
    (hy : c.y ∈ keptYs features grid featWithin buses cellWithin bus) :
    mask grid buses cellWithin bus c = true :=
  mask_iff.mpr ⟨mem_keptXs_elim hx, mem_keptYs_elim hy⟩

/-- Pointwise description of a matrix entry as a quotient: the defined-or-zero
value of a grid cell is its masked building area divided by the selected total
(recall that in `ℚ` a division by `0` is `0`). -/
theorem availability_getD (features : List Feature) (grid : List Cell)
    (featWithin : Nat → Cell → Bool) (buses : List String)
    (cellWithin : Cell → String → Bool) (bus : String) {c : Cell} (hc : c ∈ grid) :
    (availability features grid featWithin buses cellWithin bus c).getD 0 =
      (if mask grid buses cellWithin bus c then
        (building_area_in_cell features grid featWithin c).getD 0 else 0) /
        selected_total features grid featWithin buses cellWithin bus := by
  unfold availability
  by_cases hk : c.x ∈ keptXs features grid featWithin buses cellWithin bus ∧
      c.y ∈ keptYs features grid featWithin buses cellWithin bus
  · rw [if_pos hk, if_pos (mask_of_kept hk.1 hk.2)]
    by_cases hT : selected_total features grid featWithin buses cellWithin bus = 0
    · simp [xdiv, hT]
    · cases hb : building_area_in_cell features grid featWithin c with
      | none => simp [xdiv, hb, hT]
      | some v => simp [xdiv, hb, hT]
  · rw [if_neg hk]
    by_cases hm : mask grid buses cellWithin bus c = true
    · cases hb : building_area_in_cell features grid featWithin c with
      | none => simp [hm, hb]
      | some v => exact absurd (kept_of_mask_isSome hc hm (by simp [hb])) hk
    · simp [hm]

/-- A defined matrix entry is a masked building area divided by the selected
total, and the total is nonzero. -/
theorem availability_some_elim {features : List Feature} {grid : List Cell}
    {featWithin : Nat → Cell → Bool} {buses : List String}
    {cellWithin : Cell → String → Bool} {bus : String} {c : Cell} {v : ℚ}
    (h : availability features grid featWithin buses cellWithin bus c = some v) :
    (c.x ∈ keptXs features grid featWithin buses cellWithin bus ∧
      c.y ∈ keptYs features grid featWithin buses cellWithin bus) ∧
    selected_total features grid featWithin buses cellWithin bus ≠ 0 ∧
    ∃ u, building_area_in_cell features grid featWithin c = some u ∧
      v = u / selected_total features grid featWithin buses cellWithin bus := by
  unfold availability at h
  by_cases hk : c.x ∈ keptXs features grid featWithin buses cellWithin bus ∧
      c.y ∈ keptYs features grid featWithin buses cellWithin bus
  · rw [if_pos hk] at h
    cases hb : building_area_in_cell features grid featWithin c with
    | none => rw [hb] at h; simp [xdiv] at h
    | some u =>
      rw [hb] at h
      by_cases hT : selected_total features grid featWithin buses cellWithin bus = 0
      · simp [xdiv, hT] at h
      · refine ⟨hk, hT, u, rfl, ?_⟩
        simpa [xdiv, hT] using h.symm
  · rw [if_neg hk] at h
    cases h

/-- The selected total is non-negative when all feature weights are. -/
theorem selected_total_nonneg {features : List Feature} {grid : List Cell}
    {featWithin : Nat → Cell → Bool} {buses : List String}
    {cellWithin : Cell → String → Bool} {bus : String}
    (hw : ∀ f ∈ features, 0 ≤ f.weight) :
    0 ≤ selected_total features grid featWithin buses cellWithin bus := by
  refine List.sum_nonneg fun x hx => ?_
  rcases List.mem_map.mp hx with ⟨d, _, rfl⟩
  exact building_area_getD_nonneg hw d

/-- A nonzero member-cell total forces a strictly positive selected total. -/
theorem selected_total_pos {features : List Feature} {grid : List Cell}
    {featWithin : Nat → Cell → Bool} {buses : List String}
    {cellWithin : Cell → String → Bool} {bus : String}
    (hw : ∀ f ∈ features, 0 ≤ f.weight)
    (hmz : member_total features grid featWithin buses cellWithin bus ≠ 0) :
    0 < selected_total features grid featWithin buses cellWithin bus := by
  obtain ⟨x, hx, hxne⟩ := exists_ne_zero_of_sum_ne hmz
  rcases List.mem_map.mp hx with ⟨c, hcl, rfl⟩
  have hcpos : 0 < (building_area_in_cell features grid featWithin c).getD 0 :=
    lt_of_le_of_ne (building_area_getD_nonneg hw c) (Ne.symm hxne)
  have hcg : c ∈ grid := (mem_cell_list.mp hcl).1
  have hcm : mask grid buses cellWithin bus c = true := mask_of_mem_cell_list hcl
  refine sum_pos_of_mem_list (fun x hx => ?_) ?_ hcpos
  · rcases List.mem_map.mp hx with ⟨d, _, rfl⟩
    exact building_area_getD_nonneg hw d
  · exact List.mem_map.mpr ⟨c, List.mem_filter.mpr ⟨hcg, hcm⟩, rfl⟩

/-- C1.  For every bus whose member cells carry a nonzero total building area,
the availability row is non-negative and its defined entries sum exactly to
`1` (so in particular within the `1e-9` tolerance the spec allows).  The
grid-uniqueness hypothesis records the data-model invariant under which the
sum over the grid list is the sum of the distinct matrix entries. -/
theorem C1_normalization (features : List Feature) (grid : List Cell)
    (featWithin : Nat → Cell → Bool) (buses : List String)
    (cellWithin : Cell → String → Bool) (bus : String)
    (_hnd : grid.Nodup)
    (hw : ∀ f ∈ features, 0 ≤ f.weight)
    (hmz : member_total features grid featWithin buses cellWithin bus ≠ 0) :
    (∀ c v, availability features grid featWithin buses cellWithin bus c = some v →
      0 ≤ v) ∧
    defined_sum features grid featWithin buses cellWithin bus = 1 := by
  have hT : 0 < selected_total features grid featWithin buses cellWithin bus :=
    selected_total_pos hw hmz
  constructor
  · intro c v hv
    obtain ⟨_, _, u, hu, rfl⟩ := availability_some_elim hv
    exact div_nonneg (building_area_nonneg hw hu) (le_of_lt hT)
  · unfold defined_sum
    have hpt : (grid.map fun c =>
        (availability features grid featWithin buses cellWithin bus c).getD 0) =
        grid.map fun c =>
          (if mask grid buses cellWithin bus c then
            (building_area_in_cell features grid featWithin c).getD 0 else 0) /
            selected_total features grid featWithin buses cellWithin bus := by
      refine List.map_congr_left fun c hc => ?_
      exact availability_getD features grid featWithin buses cellWithin bus hc
    rw [hpt, sum_map_div_eq, ← sum_map_ite_filter]
    exact div_self (ne_of_gt hT)

/-- The normalization total of a bus is the sum of the defined building areas
over exactly the mask-selected cells. -/
theorem selected_total_eq_masked (features : List Feature) (grid : List Cell)
    (featWithin : Nat → Cell → Bool) (buses : List String)
    (cellWithin : Cell → String → Bool) (bus : String) :
    selected_total features grid featWithin buses cellWithin bus =
      ((masked_cells grid buses cellWithin bus).map
        fun c => (building_area_in_cell features grid featWithin c).getD 0).sum := rfl

/-- C2 (amended).  A defined availability entry of a bus always lies in the
Cartesian product of the member cells' x values and y values; it need not be a
member cell itself, because the mask is that Cartesian product rather than the
member set (the leakage counterexample shows the original claim fails). -/
theorem C2_defined_entries_in_member_product {features : List Feature}
    {grid : List Cell} {featWithin : Nat → Cell → Bool} {buses : List String}
    {cellWithin : Cell → String → Bool} {bus : String} {c : Cell} {v : ℚ}
    (h : availability features grid featWithin buses cellWithin bus c = some v) :
    c.x ∈ (cell_list grid buses cellWithin bus).map Cell.x ∧
    c.y ∈ (cell_list grid buses cellWithin bus).map Cell.y := by
  obtain ⟨⟨hx, hy⟩, -, -⟩ := availability_some_elim h
  exact ⟨mem_keptXs_elim hx, mem_keptYs_elim hy⟩

/-- C2 fails on the code as stated: with the diagonal zone holding only (0,0)
and (1,1) and a building of area 5 in the cell (1,0), the Cartesian-product
mask gives the cell (1,0) the defined value 5/7 although that cell is not a
member of the zone. -/
theorem C2_leakage_counterexample :
    availability lkF grid4 lkW ["Z1"] lkCW "Z1" ⟨1, 0⟩ = some (5 / 7) ∧
    (⟨1, 0⟩, "Z1") ∉ map_cell_to_region grid4 ["Z1"] lkCW := by
  refine ⟨?_, by decide⟩
  norm_num [availability, keptXs, keptYs, mask, cell_list, map_cell_to_region,
    buildings_in_cells, building_area_pairs, building_area_in_cell,
    selected_total, xdiv, grid4, lkF, lkW, lkCW]

/-- Witness for the amended C2 theorem at the spec scenario's cell (0,0). -/
theorem C2_witness :
    availability exF grid4 exW ["Z1"] exCW "Z1" ⟨0, 0⟩ = some (1 / 4) ∧
    ((0 : Int) ∈ (cell_list grid4 ["Z1"] exCW "Z1").map Cell.x ∧
      (0 : Int) ∈ (cell_list grid4 ["Z1"] exCW "Z1").map Cell.y) := by
  have h : availability exF grid4 exW ["Z1"] exCW "Z1" ⟨0, 0⟩ = some (1 / 4) := by
    norm_num [availability, keptXs, keptYs, mask, cell_list, map_cell_to_region,
      buildings_in_cells, building_area_pairs, building_area_in_cell,
      selected_total, xdiv, grid4, exF, exW, exCW]
  exact ⟨h, C2_defined_entries_in_member_product h⟩

/-- C3.  For every bus, the cells selected for normalization and assignment
are exactly those in the Cartesian product of the member cells' x values and
y values; that selection always contains the member cells, and coincides with
them exactly when the member set is a full rectangle in index space. -/
theorem C3_mask_is_cartesian_product (grid : List Cell) (buses : List String)
    (cellWithin : Cell → String → Bool) (bus : String) {c : Cell} (hc : c ∈ grid) :
    (c ∈ masked_cells grid buses cellWithin bus ↔
      c.x ∈ (cell_list grid buses cellWithin bus).map Cell.x ∧
      c.y ∈ (cell_list grid buses cellWithin bus).map Cell.y) ∧
    (c ∈ cell_list grid buses cellWithin bus →
      c ∈ masked_cells grid buses cellWithin bus) ∧
    ((∀ d ∈ grid, d.x ∈ (cell_list grid buses cellWithin bus).map Cell.x →
        d.y ∈ (cell_list grid buses cellWithin bus).map Cell.y →
        d ∈ cell_list grid buses cellWithin bus) →
      (c ∈ masked_cells grid buses cellWithin bus ↔
        c ∈ cell_list grid buses cellWithin bus)) := by
  have hmem : c ∈ masked_cells grid buses cellWithin bus ↔
      mask grid buses cellWithin bus c = true :=
    ⟨fun h => (List.mem_filter.mp h).2, fun h => List.mem_filter.mpr ⟨hc, h⟩⟩
  refine ⟨hmem.trans mask_iff, fun h => hmem.mpr (mask_of_mem_cell_list h),
    fun hrect => ⟨fun h => ?_, fun h => hmem.mpr (mask_of_mem_cell_list h)⟩⟩
  obtain ⟨hx, hy⟩ := (hmem.trans mask_iff).mp h
  exact hrect c hc hx hy

/-- Witness for C3 at the spec scenario, whose member set {(0,0),(0,1)} is a
full rectangle. -/
theorem C3_witness :
    ((⟨0, 0⟩ : Cell) ∈ masked_cells grid4 ["Z1"] exCW "Z1" ↔
      (0 : Int) ∈ (cell_list grid4 ["Z1"] exCW "Z1").map Cell.x ∧
      (0 : Int) ∈ (cell_list grid4 ["Z1"] exCW "Z1").map Cell.y) ∧
    ((⟨0, 0⟩ : Cell) ∈ cell_list grid4 ["Z1"] exCW "Z1" →
      (⟨0, 0⟩ : Cell) ∈ masked_cells grid4 ["Z1"] exCW "Z1") ∧
    ((∀ d ∈ grid4, d.x ∈ (cell_list grid4 ["Z1"] exCW "Z1").map Cell.x →
        d.y ∈ (cell_list grid4 ["Z1"] exCW "Z1").map Cell.y →
        d ∈ cell_list grid4 ["Z1"] exCW "Z1") →
      ((⟨0, 0⟩ : Cell) ∈ masked_cells grid4 ["Z1"] exCW "Z1" ↔
        (⟨0, 0⟩ : Cell) ∈ cell_list grid4 ["Z1"] exCW "Z1")) :=
  C3_mask_is_cartesian_product grid4 ["Z1"] exCW "Z1" (by decide)

/-- C4 fails on the code as stated: the diagonal zone's member cells (0,0) and
(1,1) carry zero total building area, yet the zone's row is not left undefined
— the leaked cell (1,0) receives the defined value 1. -/
theorem C4_zero_member_counterexample :
    member_total zF grid4 lkW ["Z1"] lkCW "Z1" = 0 ∧
    availability zF grid4 lkW ["Z1"] lkCW "Z1" ⟨1, 0⟩ = some 1 := by
  constructor
  · norm_num [member_total, cell_list, map_cell_to_region, building_area_in_cell,
      building_area_pairs, buildings_in_cells, grid4, zF, lkW, lkCW]
  · norm_num [availability, keptXs, keptYs, mask, cell_list, map_cell_to_region,
      buildings_in_cells, building_area_pairs, building_area_in_cell,
      selected_total, xdiv, grid4, zF, lkW, lkCW]

/-- C4 (amended).  When the cells selected by the mask carry zero total weight
(`selected_data.sum() = 0`), every entry of the bus row is left undefined: no
defined value and in particular no NaN that looks like data is produced.  (The
non-negativity hypothesis records the regime in which the Option-valued
division models the floating-point one: every defined selected value is then 0
and `0.0/0.0` is NaN, i.e. undefined.)  The hypothesis must be about the
selected total, not the member total: the counterexample shows a zone with
zero member weight whose row still holds a defined leaked value. -/
theorem C4_zero_selected_total (features : List Feature) (grid : List Cell)
    (featWithin : Nat → Cell → Bool) (buses : List String)
    (cellWithin : Cell → String → Bool) (bus : String)
    (_hw : ∀ f ∈ features, 0 ≤ f.weight)
    (hT : selected_total features grid featWithin buses cellWithin bus = 0) :
    ∀ c, availability features grid featWithin buses cellWithin bus c = none := by
  intro c
  unfold availability
  by_cases hk : c.x ∈ keptXs features grid featWithin buses cellWithin bus ∧
      c.y ∈ keptYs features grid featWithin buses cellWithin bus
  · rw [if_pos hk]
    cases hb : building_area_in_cell features grid featWithin c <;>
      simp [xdiv, hT, hb]
  · rw [if_neg hk]

/-- Witness for the amended C4 theorem: no feature at all lies in the grid, so
the selected total of Z1 is zero and its whole row is undefined. -/
theorem C4_witness :
    selected_total [] grid4 exW ["Z1"] exCW "Z1" = 0 ∧
    availability [] grid4 exW ["Z1"] exCW "Z1" ⟨0, 0⟩ = none := by
  have hT : selected_total [] grid4 exW ["Z1"] exCW "Z1" = 0 := by
    norm_num [selected_total, mask, cell_list, map_cell_to_region,
      building_area_in_cell, building_area_pairs, buildings_in_cells, grid4, exCW]
  exact ⟨hT, C4_zero_selected_total [] grid4 exW ["Z1"] exCW "Z1"
    (fun f hf => absurd hf (List.not_mem_nil f)) hT ⟨0, 0⟩⟩

/-- C6.  The spec scenario: four cells, zone Z1 holding (0,0) and (0,1), one
feature of weight 10 in (0,0) and one of weight 30 in (0,1); the Z1 row maps
(0,0) to 1/4 and (0,1) to 3/4, and has no defined value at (1,0) or (1,1). -/
theorem C6_scenario :
    availability exF grid4 exW ["Z1"] exCW "Z1" ⟨0, 0⟩ = some (1 / 4) ∧
    availability exF grid4 exW ["Z1"] exCW "Z1" ⟨0, 1⟩ = some (3 / 4) ∧
    availability exF grid4 exW ["Z1"] exCW "Z1" ⟨1, 0⟩ = none ∧
    availability exF grid4 exW ["Z1"] exCW "Z1" ⟨1, 1⟩ = none := by
  norm_num [availability, keptXs, keptYs, mask, cell_list, map_cell_to_region,
    buildings_in_cells, building_area_pairs, building_area_in_cell,
    selected_total, xdiv, grid4, exF, exW, exCW]

/-- Witness for C1 at the spec scenario (member total 40, row sums to 1). -/
theorem C1_witness :
    member_total exF grid4 exW ["Z1"] exCW "Z1" ≠ 0 ∧
    defined_sum exF grid4 exW ["Z1"] exCW "Z1" = 1 := by
  have hm : member_total exF grid4 exW ["Z1"] exCW "Z1" = 40 := by
    norm_num [member_total, cell_list, map_cell_to_region, building_area_in_cell,
      building_area_pairs, buildings_in_cells, grid4, exF, exW, exCW]
  have hmz : member_total exF grid4 exW ["Z1"] exCW "Z1" ≠ 0 := by
    rw [hm]; norm_num
  have hw : ∀ f ∈ exF, 0 ≤ f.weight := by
    intro f hf
    simp only [exF, List.mem_cons, List.not_mem_nil, or_false] at hf
    rcases hf with rfl | rfl <;> norm_num
  exact ⟨hmz, (C1_normalization exF grid4 exW ["Z1"] exCW "Z1" (by decide) hw hmz).2⟩

/-- C5 (amended).  The spatial join pairs each feature with every grid cell
whose polygon contains it; when the grid cells' containment regions are
mutually exclusive each feature is assigned to at most one cell (a feature
contained in no cell is dropped, so "exactly one" fails — see the unassigned
counterexample); and each cell's aggregated weight is the sum of the weights
of exactly the features assigned to it. -/
theorem C5_feature_aggregation (features : List Feature) (grid : List Cell)
    (featWithin : Nat → Cell → Bool)
    (hnd : grid.Nodup)
    (hdisj : ∀ i, ∀ d ∈ grid, ∀ d2 ∈ grid, featWithin i d = true →
      featWithin i d2 = true → d = d2) :
    (∀ p : Feature × Cell, p ∈ buildings_in_cells features grid featWithin ↔
      p.1 ∈ features ∧ p.2 ∈ assigned_cells grid featWithin p.1.fid) ∧
    (∀ f ∈ features, (assigned_cells grid featWithin f.fid).length ≤ 1) ∧
    (∀ c ∈ grid, (building_area_in_cell features grid featWithin c).getD 0 =
      ((features.filter fun f => featWithin f.fid c).map Feature.weight).sum) := by
  refine ⟨fun p => ?_, fun f _ => ?_, fun c hc => building_area_getD_eq hnd hc⟩
  · rw [mem_buildings_in_cells]
    unfold assigned_cells
    constructor
    · rintro ⟨h1, h2, h3⟩
      exact ⟨h1, List.mem_filter.mpr ⟨h2, h3⟩⟩
    · rintro ⟨h1, h2⟩
      exact ⟨h1, (List.mem_filter.mp h2).1, (List.mem_filter.mp h2).2⟩
  · refine length_le_one_of_nodup (hnd.filter _) fun a ha b hb => ?_
    have ha2 := List.mem_filter.mp ha
    have hb2 := List.mem_filter.mp hb
    exact hdisj f.fid a ha2.1 b hb2.1 ha2.2 hb2.2

/-- C5 fails as stated: a feature whose polygon lies within no grid cell (for
example one straddling a cell boundary) is assigned to zero cells, not exactly
one, and its weight is dropped from every cell. -/
theorem C5_unassigned_counterexample :
    (assigned_cells [⟨0, 0⟩] (fun _ _ => false) 0).length = 0 ∧
    buildings_in_cells [⟨0, 5⟩] [⟨0, 0⟩] (fun _ _ => false) = [] :=
  ⟨rfl, rfl⟩

/-- Witness for the amended C5 theorem at the spec scenario. -/
theorem C5_witness :
    ((⟨0, 10⟩ : Feature), (⟨0, 0⟩ : Cell)) ∈ buildings_in_cells exF grid4 exW ∧
    (assigned_cells grid4 exW 0).length ≤ 1 ∧
    (building_area_in_cell exF grid4 exW ⟨0, 0⟩).getD 0 =
      ((exF.filter fun f => exW f.fid ⟨0, 0⟩).map Feature.weight).sum := by
  have hdisj : ∀ i, ∀ d ∈ grid4, ∀ d2 ∈ grid4, exW i d = true →
      exW i d2 = true → d = d2 := by
    intro i d _ d2 _ h1 h2
    simp only [exW, Bool.or_eq_true, Bool.and_eq_true, decide_eq_true_eq] at h1 h2
    rcases h1 with ⟨rfl, rfl⟩ | ⟨rfl, rfl⟩ <;>
      rcases h2 with ⟨h, rfl⟩ | ⟨h, rfl⟩ <;> first | rfl | exact absurd h (by decide)
  have h := C5_feature_aggregation exF grid4 exW (by decide) hdisj
  refine ⟨?_, ?_, h.2.2 ⟨0, 0⟩ (by decide)⟩
  · refine (h.1 (⟨0, 10⟩, ⟨0, 0⟩)).mpr ⟨?_, by decide⟩
    simp [exF]
  · have hf : (⟨0, 10⟩ : Feature) ∈ exF := by simp [exF]
    exact h.2.1 ⟨0, 10⟩ hf

/-- C8.  Cell-to-zone membership is decided by the containment test alone: a
grid cell whose polygon is within no zone polygon is a member of no zone, even
when its polygon intersects some zone polygon (a cell straddling a zone
boundary is excluded from every zone). -/
theorem C8_membership_is_containment (grid : List Cell) (buses : List String)
    (cellWithin : Cell → String → Bool) (intersects : Cell → String → Bool)
    (c : Cell)
    (hno : ∀ b ∈ buses, cellWithin c b = false)
    (_hstraddle : ∃ b ∈ buses, intersects c b = true) :
    ∀ b, (c, b) ∉ map_cell_to_region grid buses cellWithin := by
  intro b hb
  obtain ⟨-, hbb, hw⟩ := mem_map_cell_to_region.mp hb
  rw [hno b hbb] at hw
  cases hw

/-- Witness for C8: a cell within no zone but intersecting one is no member. -/
theorem C8_witness :
    ((⟨0, 0⟩ : Cell), "Z1") ∉ map_cell_to_region grid4 ["Z1"] (fun _ _ => false) :=
  C8_membership_is_containment grid4 ["Z1"] (fun _ _ => false) (fun _ _ => true)
    ⟨0, 0⟩ (fun _ _ => rfl) ⟨"Z1", by decide, rfl⟩ "Z1"

/-- An empty kept x-coordinate list forces the whole bus row to be
undefined. -/
theorem availability_none_of_keptXs_nil {features : List Feature}
    {grid : List Cell} {featWithin : Nat → Cell → Bool} {buses : List String}
    {cellWithin : Cell → String → Bool} {bus : String}
    (hk : keptXs features grid featWithin buses cellWithin bus = []) (c : Cell) :
    availability features grid featWithin buses cellWithin bus c = none := by
  unfold availability
  rw [if_neg]
  rintro ⟨hx, -⟩
  rw [hk] at hx
  exact absurd hx (List.not_mem_nil _)

/-- C9 fails as stated: on an empty features input the loop does not fail with
InvalidInputError; it returns matrices (here the whole Z1 row is
undefined). -/
theorem C9_no_error_counterexample :
    computeZoneAvailability [] grid4 exW ["Z1"] exCW ≠
      Except.error RunError.invalidInput ∧
    availability [] grid4 exW ["Z1"] exCW "Z1" ⟨0, 1⟩ = none := by
  refine ⟨by simp [computeZoneAvailability], ?_⟩
  apply availability_none_of_keptXs_nil
  decide

/-- C9 (amended).  On an empty features, grid, or buses input the loop does
not fail: the operation returns the matrices, and every entry of every bus row
is undefined. -/
theorem C9_empty_inputs (features : List Feature) (grid : List Cell)
    (featWithin : Nat → Cell → Bool) (buses : List String)
    (cellWithin : Cell → String → Bool)
    (h : features = [] ∨ grid = [] ∨ buses = []) :
    computeZoneAvailability features grid featWithin buses cellWithin =
      Except.ok (availability features grid featWithin buses cellWithin) ∧
    ∀ bus c, availability features grid featWithin buses cellWithin bus c = none := by
  refine ⟨rfl, fun bus c => ?_⟩
  refine availability_none_of_keptXs_nil ?_ c
  rcases h with rfl | rfl | rfl
  · have hfil : grid.filter (fun c => mask grid buses cellWithin bus c &&
        (building_area_in_cell [] grid featWithin c).isSome) = [] :=
      List.filter_eq_nil_iff.mpr fun d _ => by
        simp [building_area_in_cell, building_area_pairs, buildings_in_cells]
    simp [keptXs, hfil]
  · rfl
  · have hcl : cell_list grid [] cellWithin bus = [] :=
      List.eq_nil_iff_forall_not_mem.mpr fun d hd =>
        absurd (mem_cell_list.mp hd).2.1 (List.not_mem_nil bus)
    have hfil : grid.filter (fun c => mask grid [] cellWithin bus c &&
        (building_area_in_cell features grid featWithin c).isSome) = [] :=
      List.filter_eq_nil_iff.mpr fun d _ hpass => by
        have hm := (Bool.and_eq_true_iff.mp hpass).1
        rw [mask, hcl] at hm
        simp at hm
    simp [keptXs, hfil]

/-- Witness for the amended C9 theorem at an empty features input. -/
theorem C9_witness :
    computeZoneAvailability [] grid4 exW ["Z1"] exCW =
      Except.ok (availability [] grid4 exW ["Z1"] exCW) ∧
    availability [] grid4 exW ["Z1"] exCW "Z1" ⟨1, 1⟩ = none := by
  have h := C9_empty_inputs [] grid4 exW ["Z1"] exCW (Or.inl rfl)
  exact ⟨h.1, h.2 "Z1" ⟨1, 1⟩⟩

/-- C10 fails as stated: zone Z2 holds no grid cell and its row is empty, but
no NoMemberCellsWarning is surfaced — the loop's warning list is empty. -/
theorem C10_no_warning_counterexample :
    (map_cell_to_region grid4 ["Z1", "Z2"] exCW).filter
      (fun p => decide (p.2 = "Z2")) = [] ∧
    availability exF grid4 exW ["Z1", "Z2"] exCW "Z2" ⟨0, 0⟩ = none ∧
    RunWarning.noMemberCells ∉ run_warnings exF grid4 exW ["Z1", "Z2"] exCW := by
  refine ⟨by decide, ?_, by decide⟩
  apply availability_none_of_keptXs_nil
  decide

/-- C10 (amended).  A bus whose region contains no grid cell yields a row with
no defined entries; however no warning is surfaced, because the loop's warning
list is always empty — the claimed NoMemberCellsWarning does not exist in the
code. -/
theorem C10_empty_zone_row (features : List Feature) (grid : List Cell)
    (featWithin : Nat → Cell → Bool) (buses : List String)
    (cellWithin : Cell → String → Bool) (bus : String)
    (h : ∀ c ∈ grid, cellWithin c bus = false) :
    (∀ c, availability features grid featWithin buses cellWithin bus c = none) ∧
    run_warnings features grid featWithin buses cellWithin = [] := by
  refine ⟨fun c => ?_, rfl⟩
  have hcl : cell_list grid buses cellWithin bus = [] :=
    List.eq_nil_iff_forall_not_mem.mpr fun d hd => by
      obtain ⟨hg, -, hw⟩ := mem_cell_list.mp hd
      rw [h d hg] at hw
      cases hw
  refine availability_none_of_keptXs_nil ?_ c
  have hfil : grid.filter (fun d => mask grid buses cellWithin bus d &&
      (building_area_in_cell features grid featWithin d).isSome) = [] :=
    List.filter_eq_nil_iff.mpr fun d _ hpass => by
      have hm := (Bool.and_eq_true_iff.mp hpass).1
      rw [mask, hcl] at hm
      simp at hm
  simp [keptXs, hfil]

/-- Witness for the amended C10 theorem: Z2 holds no cell of the grid. -/
theorem C10_witness :
    availability exF grid4 exW ["Z1", "Z2"] exCW "Z2" ⟨1, 1⟩ = none ∧
    run_warnings exF grid4 exW ["Z1", "Z2"] exCW = [] := by
  have h := C10_empty_zone_row exF grid4 exW ["Z1", "Z2"] exCW "Z2" (by decide)
  exact ⟨h.1 ⟨1, 1⟩, h.2⟩

/-! ### Lemmas about doubling one feature's weight -/

theorem sum_map_add_split {α : Type} (l : List α) (f g : α → ℚ) :
    (l.map fun a => f a + g a).sum = (l.map f).sum + (l.map g).sum := by
  induction l with
  | nil => simp
  | cons a t ih =>
    simp only [List.map_cons, List.sum_cons, ih]
    ring

theorem buildings_in_cells_double (features : List Feature) (grid : List Cell)
    (featWithin : Nat → Cell → Bool) (fid : Nat) :
    buildings_in_cells (double_feature features fid) grid featWithin =
      (buildings_in_cells features grid featWithin).map fun p =>
        (if p.1.fid = fid then { p.1 with weight := 2 * p.1.weight } else p.1, p.2) := by
  induction features with
  | nil => rfl
  | cons f fs ih =>
    have hfid : (if f.fid = fid then { f with weight := 2 * f.weight } else f).fid =
        f.fid := by split <;> rfl
    simp only [double_feature, List.map_cons, buildings_in_cells,
      List.flatMap_cons] at ih ⊢
    rw [List.map_append, ← ih]
    congr 1
    simp only [hfid]
    rw [List.map_map]
    rfl

theorem building_area_pairs_double (features : List Feature) (grid : List Cell)
    (featWithin : Nat → Cell → Bool) (fid : Nat) (c : Cell) :
    building_area_pairs (double_feature features fid) grid featWithin c =
      (building_area_pairs features grid featWithin c).map fun p =>
        (if p.1.fid = fid then { p.1 with weight := 2 * p.1.weight } else p.1, p.2) := by
  unfold building_area_pairs
  rw [buildings_in_cells_double, List.filter_map]
  rfl

theorem building_area_double_isSome (features : List Feature) (grid : List Cell)
    (featWithin : Nat → Cell → Bool) (fid : Nat) (c : Cell) :
    (building_area_in_cell (double_feature features fid) grid featWithin c).isSome =
      (building_area_in_cell features grid featWithin c).isSome := by
  unfold building_area_in_cell
  rw [building_area_pairs_double]
  by_cases h : building_area_pairs features grid featWithin c = []
  · rw [h]
    rfl
  · have h1 : ((building_area_pairs features grid featWithin c).map
        (fun p => (if p.1.fid = fid then { p.1 with weight := 2 * p.1.weight }
          else p.1, p.2))).isEmpty = false := by
      simp [List.isEmpty_iff, h]
    have h2 : (building_area_pairs features grid featWithin c).isEmpty = false := by
      simp [List.isEmpty_iff, h]
    simp [h1, h2]

theorem building_area_getD_double {features : List Feature} {grid : List Cell}
    {featWithin : Nat → Cell → Bool} {fid : Nat} {c : Cell}
    (hnd : grid.Nodup) (hc : c ∈ grid) :
    (building_area_in_cell (double_feature features fid) grid featWithin c).getD 0 =
      (building_area_in_cell features grid featWithin c).getD 0 +
        (if featWithin fid c = true then fid_weight features fid else 0) := by
  rw [building_area_getD_eq hnd hc, building_area_getD_eq hnd hc]
  have hfilter : (double_feature features fid).filter (fun f => featWithin f.fid c) =
      (features.filter fun f => featWithin f.fid c).map
        (fun f => if f.fid = fid then { f with weight := 2 * f.weight } else f) := by
    unfold double_feature
    rw [List.filter_map]
    congr 1
    refine List.filter_congr fun f _ => ?_
    simp only [Function.comp_apply]
    have hfid : (if f.fid = fid then { f with weight := 2 * f.weight } else f).fid =
        f.fid := by split <;> rfl
    rw [hfid]
  rw [hfilter, List.map_map]
  have hcomp : (Feature.weight ∘
      fun f => if f.fid = fid then { f with weight := 2 * f.weight } else f) =
      fun f => if decide (f.fid = fid) then 2 * f.weight else f.weight := by
    funext f
    by_cases h : f.fid = fid <;> simp [h]
  rw [hcomp, sum_map_double_split]
  congr 1
  by_cases hwc : featWithin fid c = true
  · rw [if_pos hwc]
    rw [sum_map_ite_sub features _ _ _ fun f _ hq => ?_]
    · unfold fid_weight
      rw [sum_map_ite_filter]
    · rw [of_decide_eq_true hq]
      exact hwc
  · rw [if_neg hwc]
    refine List.sum_eq_zero fun x hx => ?_
    rcases List.mem_map.mp hx with ⟨f, hf, rfl⟩
    have hwf := (List.mem_filter.mp hf).2
    by_cases h : f.fid = fid
    · exact absurd (h ▸ hwf) hwc
    · simp [h]

theorem keptXs_double (features : List Feature) (grid : List Cell)
    (featWithin : Nat → Cell → Bool) (buses : List String)
    (cellWithin : Cell → String → Bool) (bus : String) (fid : Nat) :
    keptXs (double_feature features fid) grid featWithin buses cellWithin bus =
      keptXs features grid featWithin buses cellWithin bus := by
  unfold keptXs
  congr 1
  refine List.filter_congr fun d _ => ?_
  rw [building_area_double_isSome]

theorem keptYs_double (features : List Feature) (grid : List Cell)
    (featWithin : Nat → Cell → Bool) (buses : List String)
    (cellWithin : Cell → String → Bool) (bus : String) (fid : Nat) :
    keptYs (double_feature features fid) grid featWithin buses cellWithin bus =
      keptYs features grid featWithin buses cellWithin bus := by
  unfold keptYs
  congr 1
  refine List.filter_congr fun d _ => ?_
  rw [building_area_double_isSome]

theorem selected_total_double {features : List Feature} {grid : List Cell}
    {featWithin : Nat → Cell → Bool} {buses : List String}
    {cellWithin : Cell → String → Bool} {bus : String} {fid : Nat} {c : Cell}
    (hnd : grid.Nodup)
    (hdisj : ∀ i, ∀ d ∈ grid, ∀ d2 ∈ grid, featWithin i d = true →
      featWithin i d2 = true → d = d2)
    (hcg : c ∈ grid) (hwc : featWithin fid c = true)
    (hmask : mask grid buses cellWithin bus c = true) :
    selected_total (double_feature features fid) grid featWithin buses cellWithin bus =
      selected_total features grid featWithin buses cellWithin bus +
        fid_weight features fid := by
  unfold selected_total
  have hpt : ((grid.filter fun d => mask grid buses cellWithin bus d).map
      fun d => (building_area_in_cell (double_feature features fid) grid
        featWithin d).getD 0) =
      (grid.filter fun d => mask grid buses cellWithin bus d).map
        (fun d => (building_area_in_cell features grid featWithin d).getD 0 +
          (if featWithin fid d = true then fid_weight features fid else 0)) :=
    List.map_congr_left fun d hd =>
      building_area_getD_double hnd (List.mem_filter.mp hd).1
  rw [hpt, sum_map_add_split]
  congr 1
  have hcmem : c ∈ grid.filter fun d => mask grid buses cellWithin bus d :=
    List.mem_filter.mpr ⟨hcg, hmask⟩
  rw [sum_map_eq_single (hnd.filter _) hcmem _ fun d hd hdc => ?_, if_pos hwc]
  have hdg : d ∈ grid := (List.mem_filter.mp hd).1
  by_cases hwd : featWithin fid d = true
  · exact absurd (hdisj fid d hdg c hcg hwd hwc) hdc
  · rw [if_neg hwd]

/-- The scenario containment pattern matches each feature with at most one
grid cell. -/
theorem exW_disjoint : ∀ i, ∀ d ∈ grid4, ∀ d2 ∈ grid4, exW i d = true →
    exW i d2 = true → d = d2 := by
  intro i d _ d2 _ h1 h2
  simp only [exW, Bool.or_eq_true, Bool.and_eq_true, decide_eq_true_eq] at h1 h2
  rcases h1 with ⟨rfl, rfl⟩ | ⟨rfl, rfl⟩ <;>
    rcases h2 with ⟨h, rfl⟩ | ⟨h, rfl⟩ <;> first | rfl | exact absurd h (by decide)

/-- C7 (amended).  Doubling the weight of a feature of strictly positive
weight lying in a member cell of a bus strictly increases that cell's fraction
unless it was already 1, and strictly decreases the fraction of every other
cell holding a defined strictly positive value.  (The positivity hypotheses
are forced: the zero-weight counterexample shows a weight-0 feature leaves
every fraction unchanged, and a cell with a defined value 0 keeps the value
0.) -/
theorem C7_doubling_monotonicity (features : List Feature) (grid : List Cell)
    (featWithin : Nat → Cell → Bool) (buses : List String)
    (cellWithin : Cell → String → Bool) (bus : String) (fid : Nat) (c : Cell)
    (hnd : grid.Nodup)
    (hw : ∀ g ∈ features, 0 ≤ g.weight)
    (hdisj : ∀ i, ∀ d ∈ grid, ∀ d2 ∈ grid, featWithin i d = true →
      featWithin i d2 = true → d = d2)
    (f : Feature) (hf : f ∈ features) (hfid : f.fid = fid) (hfw : 0 < f.weight)
    (hcg : c ∈ grid) (hwc : featWithin fid c = true)
    (hmem : c ∈ cell_list grid buses cellWithin bus) :
    (∀ v, availability features grid featWithin buses cellWithin bus c = some v →
      v < 1 →
      ∃ v2, availability (double_feature features fid) grid featWithin buses
        cellWithin bus c = some v2 ∧ v < v2) ∧
    (∀ d ∈ grid, d ≠ c → ∀ u,
      availability features grid featWithin buses cellWithin bus d = some u →
      0 < u →
      ∃ u2, availability (double_feature features fid) grid featWithin buses
        cellWithin bus d = some u2 ∧ u2 < u) := by
  have hmask : mask grid buses cellWithin bus c = true := mask_of_mem_cell_list hmem
  have hW : 0 < fid_weight features fid := by
    have hfmem : f ∈ features.filter fun g => decide (g.fid = fid) :=
      List.mem_filter.mpr ⟨hf, decide_eq_true hfid⟩
    have hle : f.weight ≤ fid_weight features fid := by
      refine List.single_le_sum (fun x hx => ?_) _ (List.mem_map.mpr ⟨f, hfmem, rfl⟩)
      rcases List.mem_map.mp hx with ⟨g, hg, rfl⟩
      exact hw g (List.mem_filter.mp hg).1
    exact lt_of_lt_of_le hfw hle
  have hTT : selected_total (double_feature features fid) grid featWithin buses
      cellWithin bus =
      selected_total features grid featWithin buses cellWithin bus +
        fid_weight features fid := selected_total_double hnd hdisj hcg hwc hmask
  constructor
  · intro v hv hv1
    obtain ⟨⟨hkx, hky⟩, hTne, u, hu, hveq⟩ := availability_some_elim hv
    have hT : 0 < selected_total features grid featWithin buses cellWithin bus :=
      lt_of_le_of_ne (selected_total_nonneg hw) (Ne.symm hTne)
    have hT2 : 0 < selected_total features grid featWithin buses cellWithin bus +
        fid_weight features fid := add_pos hT hW
    have hsome : (building_area_in_cell (double_feature features fid) grid
        featWithin c).isSome = true := by
      rw [building_area_double_isSome, hu]
      rfl
    obtain ⟨u2, hu2⟩ := Option.isSome_iff_exists.mp hsome
    have hu2val : u2 = u + fid_weight features fid := by
      have hg := @building_area_getD_double features grid featWithin fid c hnd hcg
      rw [hu2, hu] at hg
      simpa [hwc] using hg
    have havail2 : availability (double_feature features fid) grid featWithin buses
        cellWithin bus c = some ((u + fid_weight features fid) /
          (selected_total features grid featWithin buses cellWithin bus +
            fid_weight features fid)) := by
      unfold availability
      rw [keptXs_double, keptYs_double, if_pos ⟨hkx, hky⟩, hu2, hu2val, hTT]
      simp [xdiv, ne_of_gt hT2]
    refine ⟨_, havail2, ?_⟩
    subst hveq
    have hub : u < selected_total features grid featWithin buses cellWithin bus :=
      (div_lt_one hT).mp hv1
    rw [div_lt_div_iff₀ hT hT2]
    nlinarith [hW, hub]
  · intro d hdg hdc u hu hupos
    obtain ⟨⟨hkx, hky⟩, hTne, ud, hud, hueq⟩ := availability_some_elim hu
    have hT : 0 < selected_total features grid featWithin buses cellWithin bus :=
      lt_of_le_of_ne (selected_total_nonneg hw) (Ne.symm hTne)
    have hT2 : 0 < selected_total features grid featWithin buses cellWithin bus +
        fid_weight features fid := add_pos hT hW
    have hwd : featWithin fid d = false := by
      cases hb : featWithin fid d
      · rfl
      · exact absurd (hdisj fid d hdg c hcg hb hwc) hdc
    have hsome : (building_area_in_cell (double_feature features fid) grid
        featWithin d).isSome = true := by
      rw [building_area_double_isSome, hud]
      rfl
    obtain ⟨u2, hu2⟩ := Option.isSome_iff_exists.mp hsome
    have hu2val : u2 = ud := by
      have hg := @building_area_getD_double features grid featWithin fid d hnd hdg
      rw [hu2, hud] at hg
      simpa [hwd] using hg
    have hudpos : 0 < ud := by
      rcases div_pos_iff.mp (hueq ▸ hupos) with ⟨h1, -⟩ | ⟨-, h2⟩
      · exact h1
      · exact absurd hT (not_lt.mpr h2.le)
    have havail2 : availability (double_feature features fid) grid featWithin buses
        cellWithin bus d = some (ud /
          (selected_total features grid featWithin buses cellWithin bus +
            fid_weight features fid)) := by
      unfold availability
      rw [keptXs_double, keptYs_double, if_pos ⟨hkx, hky⟩, hu2, hu2val, hTT]
      simp [xdiv, ne_of_gt hT2]
    refine ⟨_, havail2, ?_⟩
    subst hueq
    rw [div_lt_div_iff₀ hT2 hT]
    nlinarith [hW, hudpos]

/-- C7 fails as stated: the zero-weight feature fid 2 lies in the member cell
(0,0) of Z1, yet doubling it changes nothing — the fraction of (0,0) stays
1/4 (which is not 1, so the claim demands a strict increase) and the fraction
of the other member cell (0,1) stays 3/4 instead of strictly decreasing. -/
theorem C7_zero_weight_counterexample :
    (⟨2, 0⟩ : Feature) ∈ zeroF ∧
    (⟨0, 0⟩ : Cell) ∈ cell_list grid4 ["Z1"] exCW "Z1" ∧
    zeroW 2 ⟨0, 0⟩ = true ∧
    availability zeroF grid4 zeroW ["Z1"] exCW "Z1" ⟨0, 0⟩ = some (1 / 4) ∧
    availability (double_feature zeroF 2) grid4 zeroW ["Z1"] exCW "Z1" ⟨0, 0⟩ =
      some (1 / 4) ∧
    availability zeroF grid4 zeroW ["Z1"] exCW "Z1" ⟨0, 1⟩ = some (3 / 4) ∧
    availability (double_feature zeroF 2) grid4 zeroW ["Z1"] exCW "Z1" ⟨0, 1⟩ =
      some (3 / 4) := by
  refine ⟨by simp [zeroF], by decide, by decide, ?_, ?_, ?_, ?_⟩ <;>
    norm_num [availability, double_feature, keptXs, keptYs, mask, cell_list,
      map_cell_to_region, buildings_in_cells, building_area_pairs,
      building_area_in_cell, selected_total, xdiv, grid4, zeroF, zeroW, exCW]

/-- Witness for the amended C7 theorem: doubling the weight-10 feature in
(0,0) raises that cell's fraction above 1/4 and lowers the fraction of (0,1)
below 3/4. -/
theorem C7_witness :
    (∃ v2, availability (double_feature exF 0) grid4 exW ["Z1"] exCW "Z1" ⟨0, 0⟩ =
      some v2 ∧ (1 : ℚ) / 4 < v2) ∧
    (∃ u2, availability (double_feature exF 0) grid4 exW ["Z1"] exCW "Z1" ⟨0, 1⟩ =
      some u2 ∧ u2 < 3 / 4) := by
  have hw : ∀ g ∈ exF, 0 ≤ g.weight := by
    intro g hg
    simp only [exF, List.mem_cons, List.not_mem_nil, or_false] at hg
    rcases hg with rfl | rfl <;> norm_num
  have h := C7_doubling_monotonicity exF grid4 exW ["Z1"] exCW "Z1" 0 ⟨0, 0⟩
    (by decide) hw exW_disjoint ⟨0, 10⟩ (by simp [exF]) rfl (by norm_num)
    (by decide) (by decide) (by decide)
  have h00 : availability exF grid4 exW ["Z1"] exCW "Z1" ⟨0, 0⟩ = some (1 / 4) := by
    norm_num [availability, keptXs, keptYs, mask, cell_list, map_cell_to_region,
      buildings_in_cells, building_area_pairs, building_area_in_cell,
      selected_total, xdiv, grid4, exF, exW, exCW]
  have h01 : availability exF grid4 exW ["Z1"] exCW "Z1" ⟨0, 1⟩ = some (3 / 4) := by
    norm_num [availability, keptXs, keptYs, mask, cell_list, map_cell_to_region,
      buildings_in_cells, building_area_pairs, building_area_in_cell,
      selected_total, xdiv, grid4, exF, exW, exCW]
  exact ⟨h.1 (1 / 4) h00 (by norm_num),
    h.2 ⟨0, 1⟩ (by decide) (by decide) (3 / 4) h01 (by norm_num)⟩

end PypsaRsa
